import Mathlib

/-!
# Verification of the pdf-structure-miner extraction core

Shallow embedding of the extraction engine: the numeric normalizer, the
header identifier, the row parser with its threaded `ExtractionState`, the
table-source extractors (PDF and DOCX), the text-fallback line state machine,
the file prioritizer and the deduplicator.  Strings are modelled as `List Char`,
Python floats as `ℚ`, fallible operations as `Option`.
-/

/-- Strings are lists of characters. -/
abbrev Str := List Char

/-- Python whitespace recognised by `str.strip`. -/
def isSpaceChar (c : Char) : Bool :=
  c = ' ' || c = '\t' || c = '\n' || c = '\r' || c = Char.ofNat 11 || c = Char.ofNat 12

/-- Python `str.strip()`: remove whitespace from both ends. -/
def pyStrip (s : Str) : Str :=
  List.rdropWhile isSpaceChar (s.dropWhile isSpaceChar)

/-- Python `str.lower()` restricted to ASCII and the Latin-1 letters that occur
in the corpus: codepoints 0xC0-0xDE (except multiplication sign 0xD7) gain 32. -/
def pyLowerChar (c : Char) : Char :=
  if 'A' ≤ c ∧ c ≤ 'Z' then Char.ofNat (c.toNat + 32)
  else if 0xC0 ≤ c.toNat ∧ c.toNat ≤ 0xDE ∧ c.toNat ≠ 0xD7 then Char.ofNat (c.toNat + 32)
  else c

/-- Python `str.lower()` over a whole string. -/
def lowerStr (s : Str) : Str := s.map pyLowerChar

/-- `unidecode` on one character: strip the diacritic of a Latin-1 letter,
leave everything else unchanged (all characters reaching it in this code base
are ASCII or Latin-1 letters). -/
def uniChar (c : Char) : Char :=
  let n := c.toNat
  if 0xC0 ≤ n ∧ n ≤ 0xC5 then 'A'
  else if n = 0xC7 then 'C'
  else if 0xC8 ≤ n ∧ n ≤ 0xCB then 'E'
  else if 0xCC ≤ n ∧ n ≤ 0xCF then 'I'
  else if n = 0xD1 then 'N'
  else if 0xD2 ≤ n ∧ n ≤ 0xD6 then 'O'
  else if 0xD9 ≤ n ∧ n ≤ 0xDC then 'U'
  else if n = 0xDD then 'Y'
  else if 0xE0 ≤ n ∧ n ≤ 0xE5 then 'a'
  else if n = 0xE7 then 'c'
  else if 0xE8 ≤ n ∧ n ≤ 0xEB then 'e'
  else if 0xEC ≤ n ∧ n ≤ 0xEF then 'i'
  else if n = 0xF1 then 'n'
  else if 0xF2 ≤ n ∧ n ≤ 0xF6 then 'o'
  else if 0xF9 ≤ n ∧ n ≤ 0xFC then 'u'
  else if n = 0xFD ∨ n = 0xFF then 'y'
  else c

/-- `unidecode` over a whole string. -/
def uniStr (s : Str) : Str := s.map uniChar

/-- Does `hay` start with `needle`? -/
def startsWithL : Str → Str → Bool
  | [], _ => true
  | _ :: _, [] => false
  | a :: as, b :: bs => a = b && startsWithL as bs

/-- Python `needle in hay`: substring containment. -/
def containsSub (needle : Str) : Str → Bool
  | [] => needle.isEmpty
  | c :: rest => startsWithL needle (c :: rest) || containsSub needle rest

/-- Python `s.split(sep, 1)`: the part before the first separator, and
(when the separator occurs) the part after it. -/
def splitOnce (sep : Char) : Str → Str × Option Str
  | [] => ([], none)
  | c :: rest =>
    if c = sep then ([], some rest)
    else
      let r := splitOnce sep rest
      (c :: r.1, r.2)

/-- Worker for `removeSub`, structurally recursive on a fuel bound that always
dominates the length of the remaining text. -/
def removeSubFuel (needle : Str) : Nat → Str → Str
  | 0, _ => []
  | _, [] => []
  | fuel + 1, c :: rest =>
    if needle ≠ [] ∧ startsWithL needle (c :: rest) then
      removeSubFuel needle fuel (rest.drop (needle.length - 1))
    else c :: removeSubFuel needle fuel rest

/-- Python `s.replace(needle, "")`: delete all (left-to-right, non-overlapping)
occurrences of a non-empty `needle`. -/
def removeSub (needle hay : Str) : Str := removeSubFuel needle hay.length hay

/-- A digit or a decimal point: the character class of the `[\d\.]+` pattern. -/
def isDigitDot (c : Char) : Bool := c.isDigit || c = '.'

/-- Value of a block of decimal digits. -/
def digitsVal (ds : Str) : ℕ := ds.foldl (fun a c => 10 * a + (c.toNat - 48)) 0

/-- Python `float(s)` on a string made of digits and dots: defined when `s`
holds at most one dot and at least one digit; otherwise it raises (`none`). -/
def pyFloat (s : Str) : Option ℚ :=
  if ¬ s.all isDigitDot then none
  else
    let r := splitOnce '.' s
    match r.2 with
    | none => if s = [] then none else some (digitsVal s : ℚ)
    | some b =>
      if b.any (fun c => c = '.') then none
      else if r.1 = [] ∧ b = [] then none
      else some (mkRat (digitsVal r.1 * 10 ^ b.length + digitsVal b) (10 ^ b.length))

/-- The first maximal run of digit/dot characters of `s` (the `re.search` of
`[\d\.]+`), or `none` when there is none. -/
def firstRun (s : Str) : Option Str :=
  match s.dropWhile (fun c => ¬ isDigitDot c) with
  | [] => none
  | c :: rest => some (c :: rest.takeWhile isDigitDot)

/-- The cleaning step of `_clean_number`: `val.replace(".", "").replace(",", ".")`. -/
def cleanedNumeric (val : Str) : Str :=
  (val.filter (fun c => c ≠ '.')).map (fun c => if c = ',' then '.' else c)

/-- `BaseExtractor._clean_number`: drop the thousands dots, turn the decimal
comma into a dot, extract the first digit/dot run, parse it as a float and
require the value to be positive.  Total: every failure yields `none`. -/
def cleanNumber (val : Str) : Option ℚ :=
  match firstRun (cleanedNumeric val) with
  | none => none
  | some run =>
    match pyFloat run with
    | none => none
    | some num => if 0 < num then some num else none

/-- Python `int()` applied to a float: truncation toward zero. -/
def pyTrunc (q : ℚ) : ℤ := q.num.tdiv (q.den : ℤ)

/-! ## Data model: `ItemLicitacao` (schemas/licitacao.py) and `ExtractionState` -/

/-- `ItemLicitacao.clean_lote` (pydantic `before` validator): `None` stays
absent, a string is stripped and becomes absent when blank. -/
def cleanLote : Option Str → Option Str
  | none => none
  | some s =>
    let t := pyStrip s
    if t = [] then none else some t

/-- One extracted line item, mirroring the pydantic model `ItemLicitacao`. -/
structure ItemLicitacao where
  lote : Option Str
  item : ℤ
  objeto : Str
  quantidade : ℤ
  unidade_fornecimento : Str
deriving DecidableEq

/-- Validated construction of `ItemLicitacao`: pydantic rejects (raises) unless
`item > 0`, `len(objeto) ≥ 3` and `quantidade > 0`; the lot field is cleaned by
the validator.  A raise is modelled as `none`. -/
def mkItemLicitacao (item : ℤ) (objeto : Str) (quantidade : ℤ) (unidade : Str)
    (lote : Option Str) : Option ItemLicitacao :=
  if 0 < item ∧ 3 ≤ objeto.length ∧ 0 < quantidade then
    some { lote := cleanLote lote, item := item, objeto := objeto,
           quantidade := quantidade, unidade_fornecimento := unidade }
  else none

/-- `ExtractionState` (extractors/base.py): the per-document mutable state
threaded through every parsed row. -/
structure ExtractionState where
  last_lote : Option Str
  item_counter : ℤ
deriving DecidableEq

/-! ## Header identification (`BaseExtractor._identify_columns`, core/config.py) -/

/-- `HEADER_MAPPING["item"]`. -/
def synItem : List Str := ["item".toList, "it".toList]

/-- `HEADER_MAPPING["quantidade"]`. -/
def synQuantidade : List Str :=
  ["quantidade".toList, "quant".toList, "qtd".toList, "qtdd".toList,
   "qtde".toList, "qte".toList, "unidades".toList]

/-- `HEADER_MAPPING["objeto"]`. -/
def synObjeto : List Str :=
  ["objeto".toList, "descricao".toList, "especificacao".toList,
   "discriminacao".toList, "servico".toList, "natureza".toList]

/-- `HEADER_MAPPING["unidade_fornecimento"]`. -/
def synUnidade : List Str :=
  ["unidade".toList, "unid".toList, "und".toList, "undd".toList,
   "u.m.".toList, "emb".toList]

/-- `HEADER_MAPPING["lote"]`. -/
def synLote : List Str := ["lote".toList, "grupo".toList]

/-- A cell matches a field when its cleaned text contains one of the field's
synonyms as a substring. -/
def cellMatches (syns : List Str) (cell : Str) : Bool :=
  syns.any (fun syn => containsSub syn cell)

/-- The `enumerate` scan of `_identify_columns`: index of the first cell
satisfying `p`, counting from `i`. -/
def findColumnAux (p : Str → Bool) : List Str → Nat → Option Nat
  | [], _ => none
  | c :: cs, i => if p c then some i else findColumnAux p cs (i + 1)

/-- Leftmost column whose cleaned text contains one of the synonyms. -/
def findColumn (syns : List Str) (row : List Str) : Option Nat :=
  findColumnAux (cellMatches syns) row 0

/-- Cell normalisation of `_identify_columns`: absent becomes empty, then
`unidecode`, lowercase, strip. -/
def cleanCell (c : Option Str) : Str := pyStrip (lowerStr (uniStr (c.getD [])))

/-- The field-to-column mapping built by `_identify_columns` (a Python dict
with at most these five keys). -/
structure HeaderMap where
  item : Option Nat
  quantidade : Option Nat
  objeto : Option Nat
  unidade_fornecimento : Option Nat
  lote : Option Nat
deriving DecidableEq

/-- `BaseExtractor._identify_columns`: bind every field independently to the
leftmost matching cell, and accept only when both `objeto` and `quantidade`
were bound. -/
def identifyColumns (row : List (Option Str)) : Option HeaderMap :=
  let clean := row.map cleanCell
  let m : HeaderMap :=
    { item := findColumn synItem clean
      quantidade := findColumn synQuantidade clean
      objeto := findColumn synObjeto clean
      unidade_fornecimento := findColumn synUnidade clean
      lote := findColumn synLote clean }
  if m.objeto.isSome ∧ m.quantidade.isSome then some m else none

/-! ## Row parsing (`BaseExtractor._parse_row`) -/

/-- The inner `get_val` helper of `_parse_row`: the mapped cell's text with
newlines replaced by spaces and stripped, or empty when the field is unmapped,
the index is out of range, or the cell is falsy. -/
def getVal (row : List (Option Str)) (idx : Option Nat) : Str :=
  match idx with
  | none => []
  | some i =>
    if i < row.length then
      match row.getD i none with
      | none => []
      | some v =>
        if v = [] then []
        else pyStrip (v.map (fun c => if c = '\n' then ' ' else c))
    else []

/-- The `item` resolution step of `_parse_row`: an explicit positive number
(truncated to an integer) is used and syncs the counter to it plus one;
otherwise the counter supplies the number and is incremented. -/
def resolveItem (row : List (Option Str)) (m : HeaderMap) (s : ExtractionState) :
    ℤ × ExtractionState :=
  match cleanNumber (getVal row m.item) with
  | some v =>
    if 0 < v then (pyTrunc v, { s with item_counter := pyTrunc v + 1 })
    else (s.item_counter, { s with item_counter := s.item_counter + 1 })
  | none => (s.item_counter, { s with item_counter := s.item_counter + 1 })

/-- The tail of `_parse_row` once the description/quantity gates have passed
with normalized quantity `qtd`: resolve item number and lot (mutating the
state), then attempt validated construction. -/
def parseRowCore (row : List (Option Str)) (m : HeaderMap) (s : ExtractionState)
    (qtd : ℚ) : Option ItemLicitacao × ExtractionState :=
  let step := resolveItem row m s
  let loteRaw := getVal row m.lote
  let s2 := if loteRaw = [] then step.2 else { step.2 with last_lote := some loteRaw }
  let finalLote := if loteRaw = [] then s2.last_lote else some loteRaw
  let unid := getVal row m.unidade_fornecimento
  (mkItemLicitacao step.1 (getVal row m.objeto) (pyTrunc qtd)
    (if unid = [] then "UN".toList else unid) finalLote, s2)

/-- `BaseExtractor._parse_row`: returns the parsed item (or `none`) together
with the state as left after the call (the Python code mutates it in place).
A row with a blank description or quantity cell, or an invalid quantity, is
rejected before any state mutation. -/
def parseRow (row : List (Option Str)) (m : HeaderMap) (s : ExtractionState) :
    Option ItemLicitacao × ExtractionState :=
  let desc := getVal row m.objeto
  let qtdStr := getVal row m.quantidade
  if desc = [] ∨ qtdStr = [] then (none, s)
  else
    match cleanNumber qtdStr with
    | none => (none, s)
    | some qtd =>
      if qtd = 0 then (none, s)
      else parseRowCore row m s qtd

/-! ## Table-source extraction (extractors/pdf.py `_extract_from_tables`,
extractors/docx.py `DocxExtractor.extract`) -/

/-- One extracted table: a list of rows of optional cell text. -/
abbrev TableData := List (List (Option Str))

/-- The inner row loop `for row in table[1:]`: parse every row with the shared
state, collecting the accepted items. -/
def parseRows (m : HeaderMap) : TableData → ExtractionState →
    List ItemLicitacao × ExtractionState
  | [], s => ([], s)
  | r :: rs, s =>
    let p := parseRow r m s
    let rest := parseRows m rs p.2
    (p.1.toList ++ rest.1, rest.2)

/-- Handling of one table: an empty table is skipped, a table whose first row
is not accepted as a header is skipped entirely, otherwise every subsequent row
is parsed with the shared state. -/
def processTable (t : TableData) (s : ExtractionState) :
    List ItemLicitacao × ExtractionState :=
  match t with
  | [] => ([], s)
  | hdr :: rest =>
    match identifyColumns hdr with
    | none => ([], s)
    | some m => parseRows m rest s

/-- The table loop shared by both extractors: tables in discovery order, one
state threaded through all of them. -/
def processTables : List TableData → ExtractionState →
    List ItemLicitacao × ExtractionState
  | [], s => ([], s)
  | t :: ts, s =>
    let p := processTable t s
    let rest := processTables ts p.2
    (p.1 ++ rest.1, rest.2)

/-- The page loop of `PDFExtractor._extract_from_tables`: every page yields a
(possibly empty) list of tables; the state survives page boundaries. -/
def processPages : List (List TableData) → ExtractionState →
    List ItemLicitacao × ExtractionState
  | [], s => ([], s)
  | pg :: pgs, s =>
    let p := processTables pg s
    let rest := processPages pgs p.2
    (p.1 ++ rest.1, rest.2)

/-- `PDFExtractor._extract_from_tables`: fresh state per document, then the
nested page/table loops. -/
def extractFromTables (pages : List (List TableData)) : List ItemLicitacao :=
  (processPages pages { last_lote := none, item_counter := 1 }).1

/-- `DocxExtractor.extract` after the collaborator has turned every discovered
table (nested included, in discovery order) into a matrix of cell strings:
fresh state per document, one state across all tables. -/
def docxExtract (tables : List (List (List Str))) : List ItemLicitacao :=
  (processTables (tables.map (fun t => t.map (fun r => r.map some)))
    { last_lote := none, item_counter := 1 }).1

/-! ## Text-fallback extraction (extractors/pdf.py `_extract_text_items` and
helpers) -/

/-- The mutable `current_item` buffer of the text state machine (a Python dict
with at most these three keys). -/
structure TextBuffer where
  objeto : Option Str
  quantidade : Option ℤ
  unidade_fornecimento : Option Str
deriving DecidableEq

/-- The cleared buffer. -/
def emptyBuffer : TextBuffer :=
  { objeto := none, quantidade := none, unidade_fornecimento := none }

/-- `PDFExtractor._save_buffer_item`: requires a present quantity, strips the
`Detalhada:` boilerplate from the description, requires the minimum description
length, and appends the constructed item numbered `len(items) + 1`; every
failure (including construction failure) leaves the list unchanged. -/
def saveBufferItem (items : List ItemLicitacao) (buf : TextBuffer)
    (lote : Option Str) : List ItemLicitacao :=
  match buf.quantidade with
  | none => items
  | some q =>
    let nextId : ℤ := (items.length : ℤ) + 1
    let desc := pyStrip (removeSub "Detalhada:".toList (buf.objeto.getD []))
    if desc.length < 3 then items
    else
      match mkItemLicitacao nextId desc q (buf.unidade_fornecimento.getD "UN".toList)
          lote with
      | some it => items ++ [it]
      | none => items

/-- `PDFExtractor._flush_item`: when the buffer holds both a description and a
quantity, save it and clear the buffer; otherwise leave everything unchanged. -/
def flushItem (buf : TextBuffer) (items : List ItemLicitacao) (lote : Option Str) :
    TextBuffer × List ItemLicitacao :=
  if buf.objeto.isSome ∧ buf.quantidade.isSome then
    (emptyBuffer, saveBufferItem items buf lote)
  else (buf, items)

/-- `PDFExtractor._extract_value_after_colon`: the stripped text after the
first colon, or the stripped next raw line when nothing usable follows the
colon on this line. -/
def extractValueAfterColon (line : Str) (allLines : List Str) (idx : Nat) : Str :=
  let parts := splitOnce ':' line
  match parts.2 with
  | some after =>
    if pyStrip after ≠ [] then pyStrip after
    else if idx + 1 < allLines.length then pyStrip (allLines.getD (idx + 1) [])
    else []
  | none =>
    if idx + 1 < allLines.length then pyStrip (allLines.getD (idx + 1) [])
    else []

/-- `PDFExtractor._handle_description`: flush a complete buffer first (a new
description starts a new item), then store the extracted description if any. -/
def handleDescription (line : Str) (allLines : List Str) (idx : Nat)
    (buf : TextBuffer) (items : List ItemLicitacao) (lote : Option Str) :
    TextBuffer × List ItemLicitacao :=
  let fl :=
    if buf.objeto.isSome ∧ buf.quantidade.isSome then
      (emptyBuffer, saveBufferItem items buf lote)
    else (buf, items)
  let desc := extractValueAfterColon line allLines idx
  if desc = [] then fl else ({ fl.1 with objeto := some desc }, fl.2)

/-- `PDFExtractor._process_text_line`: the description / quantity / unit /
end-of-item dispatch on one stripped line. -/
def processTextLine (line : Str) (allLines : List Str) (idx : Nat)
    (buf : TextBuffer) (items : List ItemLicitacao) (lote : Option Str) :
    TextBuffer × List ItemLicitacao :=
  let ll := lowerStr line
  if containsSub "descrição".toList ll || containsSub "objeto:".toList ll then
    handleDescription line allLines idx buf items lote
  else if containsSub "quantidade".toList ll && containsSub ":".toList line then
    if containsSub "local de entrega".toList ll then (buf, items)
    else
      match cleanNumber (extractValueAfterColon line allLines idx) with
      | some q =>
        if q = 0 then (buf, items)
        else ({ buf with quantidade := some (pyTrunc q) }, items)
      | none => (buf, items)
  else if containsSub "unidade".toList ll && containsSub ":".toList line then
    let v := extractValueAfterColon line allLines idx
    if v = [] then (buf, items)
    else ({ buf with unidade_fornecimento := some v }, items)
  else if containsSub "local de entrega".toList ll then
    flushItem buf items lote
  else (buf, items)

/-- The `enumerate(lines)` loop of `_extract_text_items`, structurally
recursive on the suffix of lines still to visit (`i` is the index of its first
line within `allLines`): blank lines are skipped, lot-header lines flush the
buffer and set the current lot to the text before the first hyphen, every
other line goes to `processTextLine`. -/
def textLoopAux (allLines : List Str) : List Str → Nat → TextBuffer →
    List ItemLicitacao → Option Str → TextBuffer × List ItemLicitacao × Option Str
  | [], _, buf, items, lote => (buf, items, lote)
  | raw :: rest, i, buf, items, lote =>
    let line := pyStrip raw
    if line = [] then textLoopAux allLines rest (i + 1) buf items lote
    else
      let ll := lowerStr line
      let headerPat :=
        (match line with | [] => false | c :: _ => c.isDigit) &&
          containsSub "-".toList line
      let groupKw :=
        containsSub "grupo".toList ll || containsSub "lote".toList ll ||
          containsSub "itens da licitação".toList ll
      if headerPat && groupKw then
        let fl := flushItem buf items lote
        textLoopAux allLines rest (i + 1) fl.1 fl.2
          (some (pyStrip (splitOnce '-' line).1))
      else
        let pr := processTextLine line allLines i buf items lote
        textLoopAux allLines rest (i + 1) pr.1 pr.2 lote

/-- `PDFExtractor._extract_text_items` over the list of text lines: run the
scan from the first line with an empty buffer and no lot, then flush once
more for an unterminated trailing item. -/
def extractTextItems (lines : List Str) : List ItemLicitacao :=
  let r := textLoopAux lines lines 0 emptyBuffer [] none
  (flushItem r.1 r.2.1 r.2.2).2

/-! ## Orchestration (services/orchestrator.py): file prioritisation, the
per-document attachment loop, deduplication -/

/-- `Orchestrator._calculate_file_priority`: scores on the lowercased,
accent-stripped filename. -/
def calcFilePriority (name : Str) : ℤ :=
  let n := uniStr (lowerStr name)
  if containsSub "-relacaoitens".toList n then 100
  else if containsSub "termo".toList n then 75
  else if containsSub "edital".toList n then 50
  else 0

/-- Stable insertion: the new element `x`, which precedes every element of `l`
in the original enumeration, goes in front of the first `y` with `le x y`. -/
def stableInsert {α : Type} (le : α → α → Prop) [DecidableRel le] (x : α) :
    List α → List α
  | [] => [x]
  | y :: ys => if le x y then x :: y :: ys else y :: stableInsert le x ys

/-- A stable insertion sort: the extensional behaviour of Python's stable
`list.sort` when `le x y` says `x` may be placed before `y`. -/
def stableSort {α : Type} (le : α → α → Prop) [DecidableRel le] (l : List α) :
    List α :=
  l.foldr (stableInsert le) []

/-- The extensional behaviour of `files_with_priority.sort(key=score,
reverse=True)`: a stable sort by score descending. -/
def sortDesc {α : Type} (l : List (ℤ × α)) : List (ℤ × α) :=
  stableSort (fun a b => b.1 ≤ a.1) l

/-- The attachment loop of `_process_single_licitacao` on the scored, sorted
files: an attachment yielding no items is passed over, an attachment yielding
items is recorded, and the loop breaks right after a yielding attachment whose
score reaches `FILE_PRIORITY_BREAK = 100`; returns the accumulated items and
the processed file names. -/
def processFiles (ext : Str → List ItemLicitacao) :
    List (ℤ × Str) → List ItemLicitacao × List Str
  | [] => ([], [])
  | (p, f) :: rest =>
    let items := ext f
    if items = [] then processFiles ext rest
    else if 100 ≤ p then (items, [f])
    else
      let r := processFiles ext rest
      (items ++ r.1, f :: r.2)

/-- Python truthiness of the optional lot: `None` and the empty string are
falsy. -/
def loteTruthy : Option Str → Bool
  | none => false
  | some s => s ≠ []

/-- The deduplication key: item number with the first 30 description
characters lowercased. -/
def keyOf (it : ItemLicitacao) : ℤ × Str := (it.item, lowerStr (it.objeto.take 30))

/-- One step of `_deduplicate_items`: a Python dict update, keeping insertion
order.  A new key is appended; on an existing key the kept item is replaced
exactly when the new one carries a truthy lot and the kept one does not. -/
def updateAssoc : List ((ℤ × Str) × ItemLicitacao) → (ℤ × Str) → ItemLicitacao →
    List ((ℤ × Str) × ItemLicitacao)
  | [], k, it => [(k, it)]
  | (k', e) :: rest, k, it =>
    if k' = k then
      (k', if loteTruthy it.lote && !loteTruthy e.lote then it else e) :: rest
    else (k', e) :: updateAssoc rest k it

/-- The `unique_map` built by `_deduplicate_items`. -/
def dedupMap (items : List ItemLicitacao) : List ((ℤ × Str) × ItemLicitacao) :=
  items.foldl (fun m it => updateAssoc m (keyOf it) it) []

/-- The extensional behaviour of `sorted(values, key=lambda x: x.item)`: a
stable ascending sort by item number. -/
def sortAscItems (l : List ItemLicitacao) : List ItemLicitacao :=
  stableSort (fun a b => a.item ≤ b.item) l

/-- `Orchestrator._deduplicate_items`: fold the items into the keyed map, then
sort the kept values ascending by item number. -/
def dedupItems (items : List ItemLicitacao) : List ItemLicitacao :=
  sortAscItems ((dedupMap items).map (fun kv => kv.2))

/-! ## Concrete fixtures used by the examples of the specification -/

/-- The header mapping binding item, quantidade, objeto, unidade and lote to
columns 0 to 4. -/
def mapIQDUL : HeaderMap :=
  { item := some 0, quantidade := some 1, objeto := some 2,
    unidade_fornecimento := some 3, lote := some 4 }

/-- The header row of the specification examples. -/
def hdrRow : List (Option Str) :=
  [some "ITEM".toList, some "QTDE".toList, some "DESCRIÇÃO".toList,
   some "UNID".toList, some "LOTE".toList]

/-- Data row `("1", "10", "Desk", "UN", "G1")`. -/
def rowDesk : List (Option Str) :=
  [some "1".toList, some "10".toList, some "Desk".toList, some "UN".toList,
   some "G1".toList]

/-- Data row `("", "5", "Chair", "UN", "")`. -/
def rowChair : List (Option Str) :=
  [some "".toList, some "5".toList, some "Chair".toList, some "UN".toList,
   some "".toList]

/-- A row whose quantity normalizes to one half and which carries lot text. -/
def rowHalfQty : List (Option Str) :=
  [some "7".toList, some "0,5".toList, some "Desk".toList, some "UN".toList,
   some "L9".toList]

/-- A row whose description has only two characters. -/
def rowShortDesc : List (Option Str) :=
  [some "".toList, some "10".toList, some "ab".toList, some "UN".toList,
   some "".toList]

/-- The item extracted from `rowDesk`. -/
def itemDesk : ItemLicitacao :=
  { lote := some "G1".toList, item := 1, objeto := "Desk".toList, quantidade := 10,
    unidade_fornecimento := "UN".toList }

/-- The item extracted from `rowChair` after `rowDesk`. -/
def itemChair : ItemLicitacao :=
  { lote := some "G1".toList, item := 2, objeto := "Chair".toList, quantidade := 5,
    unidade_fornecimento := "UN".toList }

/-- The Notebook item without a lot (first occurrence of its key). -/
def itemNB1 : ItemLicitacao :=
  { lote := none, item := 1, objeto := "Notebook Dell Core i7".toList,
    quantidade := 2, unidade_fornecimento := "UN".toList }

/-- The Notebook item with lot "G1" (second occurrence of the same key). -/
def itemNB2 : ItemLicitacao :=
  { lote := some "G1".toList, item := 1, objeto := "Notebook Dell Core i7".toList,
    quantidade := 2, unidade_fornecimento := "UN".toList }

/-- Deduplication fixture: key ("aaaa"), no lot, input position one. -/
def itemA : ItemLicitacao :=
  { lote := none, item := 1, objeto := "aaaa".toList, quantidade := 1,
    unidade_fornecimento := "UN".toList }

/-- Deduplication fixture: key ("bbbb"), input position two. -/
def itemB : ItemLicitacao :=
  { lote := none, item := 1, objeto := "bbbb".toList, quantidade := 1,
    unidade_fornecimento := "UN".toList }

/-- Deduplication fixture: key ("aaaa") again, with a lot, input position
three; it replaces `itemA` in the kept map. -/
def itemA2 : ItemLicitacao :=
  { lote := some "G1".toList, item := 1, objeto := "aaaa".toList, quantidade := 1,
    unidade_fornecimento := "UN".toList }

/-! ## Helper lemmas -/

/-- `dropWhile` is idempotent. -/
theorem dropWhileIdem (p : Char → Bool) (l : Str) :
    List.dropWhile p (List.dropWhile p l) = List.dropWhile p l := by
  induction l with
  | nil => rfl
  | cons a t ih =>
    by_cases h : p a
    · simpa [List.dropWhile_cons, h] using ih
    · simp [List.dropWhile_cons, h]

/-- Stripping is idempotent. -/
theorem pyStrip_idem (s : Str) : pyStrip (pyStrip s) = pyStrip s := by
  unfold pyStrip
  have hdu : List.dropWhile isSpaceChar (List.dropWhile isSpaceChar s) =
      List.dropWhile isSpaceChar s := dropWhileIdem _ _
  obtain ⟨t, ht⟩ := List.rdropWhile_prefix isSpaceChar (List.dropWhile isSpaceChar s)
  cases h : List.rdropWhile isSpaceChar (List.dropWhile isSpaceChar s) with
  | nil => simp [h]
  | cons a l' =>
    have hu : List.dropWhile isSpaceChar s = a :: (l' ++ t) := by
      rw [← ht, h]; simp
    have hpa : ¬ isSpaceChar a = true := by
      intro hp
      have h2 := hdu
      rw [hu, List.dropWhile_cons, if_pos hp] at h2
      have hle := (List.dropWhile_sublist (l := l' ++ t) isSpaceChar).length_le
      rw [h2] at hle
      simp at hle
    have hd : List.dropWhile isSpaceChar (a :: l') = a :: l' := by
      rw [List.dropWhile_cons, if_neg hpa]
    rw [hd, ← h, List.rdropWhile_idempotent]

/-- Stripping the empty string. -/
theorem pyStrip_nil : pyStrip [] = [] := rfl

/-- `get_val` always returns stripped text. -/
theorem pyStrip_getVal (row : List (Option Str)) (idx : Option Nat) :
    pyStrip (getVal row idx) = getVal row idx := by
  cases idx with
  | none => rfl
  | some i =>
    by_cases hlen : i < row.length
    · simp only [getVal]
      rw [if_pos hlen]
      cases row.getD i none with
      | none => exact pyStrip_nil
      | some v =>
        by_cases hv0 : v = []
        · simp [hv0, pyStrip_nil]
        · simp [hv0, pyStrip_idem]
    · simp only [getVal]
      rw [if_neg hlen]
      exact pyStrip_nil

/-- The lot validator keeps a non-blank already-stripped string unchanged. -/
theorem cleanLote_getVal (row : List (Option Str)) (idx : Option Nat)
    (h : getVal row idx ≠ []) :
    cleanLote (some (getVal row idx)) = some (getVal row idx) := by
  simp only [cleanLote, pyStrip_getVal]
  simp [h]

/-- The numeric normalizer only ever returns positive values. -/
theorem cleanNumber_pos {s : Str} {q : ℚ} (h : cleanNumber s = some q) : 0 < q := by
  unfold cleanNumber at h
  split at h
  · cases h
  · split at h
    · cases h
    · split at h
      · next hn =>
        cases h
        exact hn
      · cases h

/-- The normalizer fails on the empty string. -/
theorem cleanNumber_nil : cleanNumber [] = none := rfl

/-- Truncation of a cast natural number. -/
theorem pyTrunc_natCast (n : ℕ) : pyTrunc (n : ℚ) = n := by
  unfold pyTrunc
  rw [Rat.num_natCast, Rat.den_natCast]
  simp

/-- Truncation of a nonnegative rational is nonnegative. -/
theorem pyTrunc_nonneg {q : ℚ} (h : 0 ≤ q) : 0 ≤ pyTrunc q :=
  Int.tdiv_nonneg (Rat.num_nonneg.mpr h) (by positivity)

/-- Validated construction only produces validated items. -/
theorem mkItemLicitacao_valid {i : ℤ} {o : Str} {q : ℤ} {u : Str} {l : Option Str}
    {it : ItemLicitacao} (h : mkItemLicitacao i o q u l = some it) :
    0 < it.item ∧ 0 < it.quantidade ∧ 3 ≤ it.objeto.length := by
  unfold mkItemLicitacao at h
  split at h
  · next hc =>
    cases h
    exact ⟨hc.1, hc.2.2, hc.2.1⟩
  · cases h

/-- The fields of a successfully constructed item. -/
theorem mkItemLicitacao_fields {i : ℤ} {o : Str} {q : ℤ} {u : Str} {l : Option Str}
    {it : ItemLicitacao} (h : mkItemLicitacao i o q u l = some it) :
    it.item = i ∧ it.objeto = o ∧ it.quantidade = q ∧
      it.unidade_fornecimento = u ∧ it.lote = cleanLote l := by
  unfold mkItemLicitacao at h
  split at h
  · cases h
    exact ⟨rfl, rfl, rfl, rfl, rfl⟩
  · cases h

/-- Construction succeeds exactly on validated inputs. -/
theorem mkItemLicitacao_of {i : ℤ} {o : Str} {q : ℤ} {u : Str} {l : Option Str}
    (hi : 0 < i) (ho : 3 ≤ o.length) (hq : 0 < q) :
    mkItemLicitacao i o q u l =
      some { lote := cleanLote l, item := i, objeto := o, quantidade := q,
             unidade_fornecimento := u } := by
  unfold mkItemLicitacao
  rw [if_pos ⟨hi, ho, hq⟩]

/-- Inserting permutes. -/
theorem stableInsert_perm {α : Type} (le : α → α → Prop) [DecidableRel le]
    (x : α) (l : List α) : List.Perm (stableInsert le x l) (x :: l) := by
  induction l with
  | nil => exact List.Perm.refl _
  | cons y ys ih =>
    unfold stableInsert
    split
    · exact List.Perm.refl _
    · exact (List.Perm.cons y ih).trans (List.Perm.swap x y ys)

/-- The stable sort permutes its input. -/
theorem stableSort_perm {α : Type} (le : α → α → Prop) [DecidableRel le]
    (l : List α) : List.Perm (stableSort le l) l := by
  induction l with
  | nil => exact List.Perm.refl _
  | cons x t ih =>
    exact (stableInsert_perm le x (stableSort le t)).trans (List.Perm.cons x ih)

/-- Members of an insertion. -/
theorem stableInsert_mem {α : Type} {le : α → α → Prop} [DecidableRel le]
    {x z : α} {l : List α} (h : z ∈ stableInsert le x l) : z = x ∨ z ∈ l := by
  have := (stableInsert_perm le x l).mem_iff.mp h
  simpa using this

/-- Inserting an element that preceded every element of `l` in the original
enumeration preserves a pairwise invariant. -/
theorem stableInsert_pairwise {α : Type} (le : α → α → Prop) [DecidableRel le]
    (htrans : ∀ a b c, le a b → le b c → le a c)
    (Q : α → α → Prop) (hle : ∀ a b, Q a b → le a b)
    (x : α) (l : List α) (hl : l.Pairwise Q)
    (h1 : ∀ y ∈ l, le x y → Q x y) (h2 : ∀ y ∈ l, ¬ le x y → Q y x) :
    (stableInsert le x l).Pairwise Q := by
  induction l with
  | nil => simp [stableInsert]
  | cons y ys ih =>
    rw [List.pairwise_cons] at hl
    obtain ⟨hy, hys⟩ := hl
    unfold stableInsert
    split
    · next hxy =>
      refine List.Pairwise.cons ?_ (List.Pairwise.cons hy hys)
      intro z hz
      rcases List.mem_cons.mp hz with rfl | hz2
      · exact h1 z (List.mem_cons_self _ _) hxy
      · exact h1 z (List.mem_cons_of_mem _ hz2)
          (htrans x y z hxy (hle _ _ (hy z hz2)))
    · next hxy =>
      refine List.Pairwise.cons ?_
        (ih hys (fun z hz => h1 z (List.mem_cons_of_mem _ hz))
          (fun z hz => h2 z (List.mem_cons_of_mem _ hz)))
      intro z hz
      rcases stableInsert_mem hz with rfl | hz2
      · exact h2 y (List.mem_cons_self _ _) hxy
      · exact hy z hz2

/-- Sortedness and stability of the stable sort: in the output, every element
is `le`-before its successors, and whenever two elements tie (`le` holds both
ways) any pairwise invariant of the input, such as its original order, is
preserved. -/
theorem stableSort_pairwise {α : Type} (le : α → α → Prop) [DecidableRel le]
    (htot : ∀ a b, le a b ∨ le b a) (htrans : ∀ a b c, le a b → le b c → le a c)
    (R : α → α → Prop) (l : List α) (hl : l.Pairwise R) :
    (stableSort le l).Pairwise (fun a b => le a b ∧ (le b a → R a b)) := by
  induction l with
  | nil => simp [stableSort]
  | cons x t ih =>
    rw [List.pairwise_cons] at hl
    obtain ⟨hx, ht⟩ := hl
    refine stableInsert_pairwise le htrans _ (fun a b h => h.1) x (stableSort le t)
      (ih ht) ?_ ?_
    · intro y hy hxy
      exact ⟨hxy, fun _ => hx y ((stableSort_perm le t).mem_iff.mp hy)⟩
    · intro y hy hnxy
      exact ⟨(htot x y).resolve_left hnxy, fun hxy => absurd hxy hnxy⟩

/-- The enumeration scan finds an index exactly when some cell matches. -/
theorem findColumnAux_isSome (p : Str → Bool) (l : List Str) (i : Nat) :
    (findColumnAux p l i).isSome ↔ ∃ c ∈ l, p c := by
  induction l generalizing i with
  | nil => simp [findColumnAux]
  | cons c cs ih =>
    by_cases h : p c
    · simp [findColumnAux, h]
    · simp [findColumnAux, h, ih]

/-- The enumeration scan returns the leftmost matching index. -/
theorem findColumnAux_spec (p : Str → Bool) (l : List Str) (i j : Nat)
    (h : findColumnAux p l i = some j) :
    ∃ k, j = i + k ∧ k < l.length ∧ p (l.getD k []) ∧
      ∀ m < k, ¬ p (l.getD m []) := by
  induction l generalizing i with
  | nil => simp [findColumnAux] at h
  | cons c cs ih =>
    by_cases hc : p c
    · refine ⟨0, ?_, by simp, by simpa using hc, by omega⟩
      simp [findColumnAux, hc] at h
      omega
    · rw [show findColumnAux p (c :: cs) i = findColumnAux p cs (i + 1) by
        simp [findColumnAux, hc]] at h
      obtain ⟨k, hk1, hk2, hk3, hk4⟩ := ih (i + 1) h
      refine ⟨k + 1, by omega, by simpa using hk2, by simpa using hk3, ?_⟩
      intro m hm
      cases m with
      | zero => simpa using hc
      | succ m2 =>
        simpa using hk4 m2 (by omega)

/-- Item resolution never touches the remembered lot. -/
theorem resolveItem_last_lote (row : List (Option Str)) (m : HeaderMap)
    (s : ExtractionState) : (resolveItem row m s).2.last_lote = s.last_lote := by
  unfold resolveItem
  split
  · split <;> rfl
  · rfl

/-- Item resolution on an explicit positive number. -/
theorem resolveItem_explicit {row : List (Option Str)} {m : HeaderMap}
    (s : ExtractionState) {v : ℚ} (h : cleanNumber (getVal row m.item) = some v)
    (hv : 0 < v) :
    resolveItem row m s = (pyTrunc v, { s with item_counter := pyTrunc v + 1 }) := by
  unfold resolveItem
  rw [h]
  simp [hv]

/-- Item resolution without a usable number falls back to the counter. -/
theorem resolveItem_fallback {row : List (Option Str)} {m : HeaderMap}
    (s : ExtractionState) (h : cleanNumber (getVal row m.item) = none) :
    resolveItem row m s =
      (s.item_counter, { s with item_counter := s.item_counter + 1 }) := by
  unfold resolveItem
  rw [h]

/-- The counter after item resolution stays at least one. -/
theorem resolveItem_counter_pos {row : List (Option Str)} {m : HeaderMap}
    {s : ExtractionState} (h : 1 ≤ s.item_counter) :
    1 ≤ (resolveItem row m s).2.item_counter := by
  unfold resolveItem
  cases hc : cleanNumber (getVal row m.item) with
  | none =>
    simp
    omega
  | some v =>
    by_cases hv : 0 < v
    · have hnn := pyTrunc_nonneg (le_of_lt hv)
      simp [hv]
      omega
    · simp [hv]
      omega

/-- The state left by the core of the row parser. -/
theorem parseRowCore_snd (row : List (Option Str)) (m : HeaderMap)
    (s : ExtractionState) (qtd : ℚ) :
    (parseRowCore row m s qtd).2 =
      (if getVal row m.lote = [] then (resolveItem row m s).2
       else { (resolveItem row m s).2 with last_lote := some (getVal row m.lote) }) := by
  unfold parseRowCore
  by_cases hl : getVal row m.lote = []
  · simp [hl]
  · simp [hl]

/-- The item component of the core of the row parser. -/
theorem parseRowCore_fst (row : List (Option Str)) (m : HeaderMap)
    (s : ExtractionState) (qtd : ℚ) :
    (parseRowCore row m s qtd).1 =
      mkItemLicitacao (resolveItem row m s).1 (getVal row m.objeto) (pyTrunc qtd)
        (if getVal row m.unidade_fornecimento = [] then "UN".toList
         else getVal row m.unidade_fornecimento)
        (if getVal row m.lote = [] then s.last_lote else some (getVal row m.lote)) := by
  unfold parseRowCore
  by_cases hl : getVal row m.lote = []
  · simp [hl, resolveItem_last_lote]
  · simp [hl]

/-- A successful parse passed the gates: the description is non-blank, the
quantity normalized, and the result comes from the core. -/
theorem parseRow_some_inv {row : List (Option Str)} {m : HeaderMap}
    {s s2 : ExtractionState} {it : ItemLicitacao}
    (h : parseRow row m s = (some it, s2)) :
    ∃ q, cleanNumber (getVal row m.quantidade) = some q ∧
      getVal row m.objeto ≠ [] ∧ parseRowCore row m s q = (some it, s2) := by
  simp only [parseRow] at h
  split at h
  · simp at h
  · next hgate =>
    split at h
    · simp at h
    · next q heq =>
      split at h
      · simp at h
      · exact ⟨q, heq, (not_or.mp hgate).1, h⟩

/-- Rejection before the gates leaves the state untouched; this lemma covers
the three early-return paths. -/
theorem parseRow_reject_early {row : List (Option Str)} {m : HeaderMap}
    (s : ExtractionState)
    (h : getVal row m.objeto = [] ∨ cleanNumber (getVal row m.quantidade) = none) :
    parseRow row m s = (none, s) := by
  unfold parseRow
  rcases h with h | h
  · rw [if_pos (Or.inl h)]
  · by_cases hd : getVal row m.objeto = [] ∨ getVal row m.quantidade = []
    · rw [if_pos hd]
    · rw [if_neg hd, h]

/-- The counter invariant: any call of the row parser keeps the counter at
least one. -/
theorem parseRow_counter_pos {row : List (Option Str)} {m : HeaderMap}
    {s : ExtractionState} (h : 1 ≤ s.item_counter) :
    1 ≤ (parseRow row m s).2.item_counter := by
  simp only [parseRow]
  split
  · simpa using h
  · split
    · simpa using h
    · split
      · simpa using h
      · rw [parseRowCore_snd]
        split
        · exact resolveItem_counter_pos h
        · simpa using resolveItem_counter_pos h

/-- With the gates passed, the row parser runs its core. -/
theorem parseRow_eq_core {row : List (Option Str)} {m : HeaderMap}
    {s : ExtractionState} {q : ℚ} (hd : getVal row m.objeto ≠ [])
    (hq : cleanNumber (getVal row m.quantidade) = some q) :
    parseRow row m s = parseRowCore row m s q := by
  have hq2 : getVal row m.quantidade ≠ [] := by
    intro hnil
    rw [hnil, cleanNumber_nil] at hq
    cases hq
  have hq0 : ¬ q = 0 := (cleanNumber_pos hq).ne'
  simp only [parseRow]
  rw [if_neg (by push_neg; exact ⟨hd, hq2⟩), hq]
  show (if q = 0 then ((none, s) : Option ItemLicitacao × ExtractionState)
    else parseRowCore row m s q) = parseRowCore row m s q
  rw [if_neg hq0]

/-! ## Claim theorems -/

/-- Claim C1 (confirmed).  Row parsing with one threaded state: a row whose
item cell normalizes to a positive integer `n` is numbered `n` and sets the
counter to `n + 1`; a row without such a number takes the current counter,
which is then incremented; non-blank lot text is adopted and remembered, blank
lot text inherits the remembered lot.  On the two concrete rows of the
specification the first item gets `item = 1`, `lote = "G1"` and the second
gets `item = 2` and inherits `lote = "G1"`. -/
theorem C1_row_parsing :
    parseRow rowDesk mapIQDUL { last_lote := none, item_counter := 1 } =
      (some itemDesk, { last_lote := some "G1".toList, item_counter := 2 }) ∧
    parseRow rowChair mapIQDUL { last_lote := some "G1".toList, item_counter := 2 } =
      (some itemChair, { last_lote := some "G1".toList, item_counter := 3 }) ∧
    (∀ row m (s s2 : ExtractionState) it (n : ℕ),
      parseRow row m s = (some it, s2) →
      cleanNumber (getVal row m.item) = some (n : ℚ) → 0 < n →
      it.item = n ∧ s2.item_counter = n + 1) ∧
    (∀ row m (s s2 : ExtractionState) it,
      parseRow row m s = (some it, s2) →
      cleanNumber (getVal row m.item) = none →
      it.item = s.item_counter ∧ s2.item_counter = s.item_counter + 1) ∧
    (∀ row m (s s2 : ExtractionState) it,
      parseRow row m s = (some it, s2) → getVal row m.lote ≠ [] →
      it.lote = some (getVal row m.lote) ∧
        s2.last_lote = some (getVal row m.lote)) ∧
    (∀ row m (s s2 : ExtractionState) it,
      parseRow row m s = (some it, s2) → getVal row m.lote = [] →
      it.lote = cleanLote s.last_lote ∧ s2.last_lote = s.last_lote) := by
  refine ⟨by decide, by decide, ?_, ?_, ?_, ?_⟩
  · intro row m s s2 it n hp hi hn
    obtain ⟨q, hq, hd, hcore⟩ := parseRow_some_inv hp
    have hfst : (parseRowCore row m s q).1 = some it := by rw [hcore]
    have hsnd : (parseRowCore row m s q).2 = s2 := by rw [hcore]
    have hpos : (0 : ℚ) < (n : ℚ) := by exact_mod_cast hn
    rw [parseRowCore_fst] at hfst
    rw [parseRowCore_snd] at hsnd
    rw [resolveItem_explicit s hi hpos, pyTrunc_natCast] at hfst hsnd
    constructor
    · exact (mkItemLicitacao_fields hfst).1
    · rw [← hsnd]
      split <;> rfl
  · intro row m s s2 it hp hi
    obtain ⟨q, hq, hd, hcore⟩ := parseRow_some_inv hp
    have hfst : (parseRowCore row m s q).1 = some it := by rw [hcore]
    have hsnd : (parseRowCore row m s q).2 = s2 := by rw [hcore]
    rw [parseRowCore_fst] at hfst
    rw [parseRowCore_snd] at hsnd
    rw [resolveItem_fallback s hi] at hfst hsnd
    constructor
    · exact (mkItemLicitacao_fields hfst).1
    · rw [← hsnd]
      split <;> rfl
  · intro row m s s2 it hp hl
    obtain ⟨q, hq, hd, hcore⟩ := parseRow_some_inv hp
    have hfst : (parseRowCore row m s q).1 = some it := by rw [hcore]
    have hsnd : (parseRowCore row m s q).2 = s2 := by rw [hcore]
    rw [parseRowCore_fst, if_neg hl] at hfst
    rw [parseRowCore_snd, if_neg hl] at hsnd
    refine ⟨?_, by rw [← hsnd]⟩
    rw [(mkItemLicitacao_fields hfst).2.2.2.2]
    exact cleanLote_getVal row m.lote hl
  · intro row m s s2 it hp hl
    obtain ⟨q, hq, hd, hcore⟩ := parseRow_some_inv hp
    have hfst : (parseRowCore row m s q).1 = some it := by rw [hcore]
    have hsnd : (parseRowCore row m s q).2 = s2 := by rw [hcore]
    rw [parseRowCore_fst, if_pos hl] at hfst
    rw [parseRowCore_snd, if_pos hl] at hsnd
    refine ⟨(mkItemLicitacao_fields hfst).2.2.2.2, ?_⟩
    rw [← hsnd, resolveItem_last_lote]

/-- Witness for C1: the hypotheses of its universal parts are satisfiable; the
theorem is applied to the two concrete rows of the specification. -/
theorem C1_row_parsing_witness :
    itemDesk.item = (1 : ℕ) ∧
      ({ last_lote := some "G1".toList, item_counter := 2 } :
        ExtractionState).item_counter = (1 : ℕ) + 1 ∧
    itemChair.item =
      ({ last_lote := some "G1".toList, item_counter := 2 } :
        ExtractionState).item_counter := by
  have h1 := C1_row_parsing.2.2.1 rowDesk mapIQDUL
    { last_lote := none, item_counter := 1 }
    { last_lote := some "G1".toList, item_counter := 2 } itemDesk 1
    (by decide) (by decide) (by decide)
  have h2 := C1_row_parsing.2.2.2.1 rowChair mapIQDUL
    { last_lote := some "G1".toList, item_counter := 2 }
    { last_lote := some "G1".toList, item_counter := 3 } itemChair
    (by decide) (by decide)
  exact ⟨h1.1, h1.2, h2.1⟩

/-- Counterexample to claim C2: the claim asserts that negative inputs are
always invalid and in particular `normalize("-5")` is invalid, but the digit
extraction drops the minus sign, so the code returns `5.0`. -/
theorem C2_clean_number_counterexample :
    cleanNumber ("-5".toList) = some 5 ∧ ¬ cleanNumber ("-5".toList) = none := by
  exact ⟨by decide, by decide⟩

/-- Claim C2 (corrected).  The numeric normalizer is total and returns the
invalid sentinel exactly when the cleaned text has no digit/dot run, the first
run fails to parse as a float, or the parsed value is at most 0; every
returned value is positive, and zero is always invalid.  The minus sign,
however, is stripped with the surrounding noise, so `normalize("-5") = 5.0`
rather than invalid.  `normalize("1.234,56") = 1234.56`, `normalize("0")` and
`normalize("abc")` are invalid. -/
theorem C2_clean_number_amended :
    (∀ s q, cleanNumber s = some q → 0 < q) ∧
    (∀ s, cleanNumber s = none ↔
      ((firstRun (cleanedNumeric s)).bind pyFloat = none ∨
        ∃ q, (firstRun (cleanedNumeric s)).bind pyFloat = some q ∧ q ≤ 0)) ∧
    cleanNumber ("1.234,56".toList) = some (mkRat 30864 25) ∧
    (mkRat 30864 25 : ℚ) = 123456 / 100 ∧
    cleanNumber ("0".toList) = none ∧
    cleanNumber ("abc".toList) = none ∧
    cleanNumber ("-5".toList) = some 5 := by
  refine ⟨fun s q h => cleanNumber_pos h, fun s => ?_, by decide,
    by rw [Rat.mkRat_eq_div]; norm_num, by decide, by decide, by decide⟩
  unfold cleanNumber
  cases hr : firstRun (cleanedNumeric s) with
  | none => simp
  | some run =>
    cases hf : pyFloat run with
    | none => simp [hf]
    | some num =>
      by_cases hn : 0 < num
      · simp [hf, hn, not_le.mpr hn]
      · simp [hf, hn, le_of_not_lt hn]

/-- Witness for C2: positivity applied at a concrete input. -/
theorem C2_clean_number_amended_witness : (0 : ℚ) < 7 :=
  C2_clean_number_amended.1 ("7".toList) 7 (by decide)

/-- Counterexample to claim C3: the counter is not monotone.  With the counter
at 5, a row carrying the explicit item number 1 syncs the counter down to 2. -/
theorem C3_item_counter_counterexample :
    (parseRow rowDesk mapIQDUL
        { last_lote := none, item_counter := 5 }).2.item_counter = 2 ∧
    (2 : ℤ) < 5 := by
  exact ⟨by decide, by decide⟩

/-- Claim C3 (corrected).  Throughout any sequence of row-parser calls the
counter remains an integer at least 1, and an accepted row with an explicit
positive integer `n` syncs the counter to `n + 1`; but the sync can move the
counter backward when `n + 1` is below the current counter, so the counter is
not monotone and assigned numbers can collide again. -/
theorem C3_item_counter_amended :
    (∀ row m (s : ExtractionState), 1 ≤ s.item_counter →
      1 ≤ (parseRow row m s).2.item_counter) ∧
    (∀ row m (s : ExtractionState) (n : ℕ) q,
      getVal row m.objeto ≠ [] →
      cleanNumber (getVal row m.quantidade) = some q →
      cleanNumber (getVal row m.item) = some (n : ℚ) → 0 < n →
      (parseRow row m s).2.item_counter = n + 1) := by
  constructor
  · intro row m s h
    exact parseRow_counter_pos h
  · intro row m s n q hd hq hi hn
    have hpos : (0 : ℚ) < (n : ℚ) := by exact_mod_cast hn
    rw [parseRow_eq_core hd hq, parseRowCore_snd]
    split
    · rw [resolveItem_explicit s hi hpos]
      simp [pyTrunc_natCast]
    · rw [resolveItem_explicit s hi hpos]
      simp [pyTrunc_natCast]

/-- Witness for C3: the invariant and the sync rule applied at the two
concrete specification rows. -/
theorem C3_item_counter_amended_witness :
    1 ≤ (parseRow rowChair mapIQDUL
      { last_lote := some "G1".toList, item_counter := 2 }).2.item_counter ∧
    (parseRow rowDesk mapIQDUL
      { last_lote := none, item_counter := 5 }).2.item_counter = (1 : ℕ) + 1 := by
  constructor
  · exact C3_item_counter_amended.1 rowChair mapIQDUL
      { last_lote := some "G1".toList, item_counter := 2 } (by decide)
  · exact C3_item_counter_amended.2 rowDesk mapIQDUL
      { last_lote := none, item_counter := 5 } 1 10
      (by decide) (by decide) (by decide) (by decide)

/-- Claim C4 (confirmed).  The row parser is total (it is a Lean function) and
returns either no item or a validated one: an item with a description shorter
than 3 characters, a non-positive quantity or a non-positive item number is
never returned, because validated construction is the only way an item is
produced; moreover a row whose description text is shorter than 3 characters
always yields no item — the construction failure is absorbed. -/
theorem C4_parse_row_total :
    (∀ row m (s : ExtractionState) it, (parseRow row m s).1 = some it →
      0 < it.item ∧ 0 < it.quantidade ∧ 3 ≤ it.objeto.length) ∧
    (∀ row m (s : ExtractionState), (getVal row m.objeto).length < 3 →
      (parseRow row m s).1 = none) := by
  constructor
  · intro row m s it h
    have h2 : parseRow row m s = (some it, (parseRow row m s).2) := by
      rw [← h]
    obtain ⟨q, hq, hd, hcore⟩ := parseRow_some_inv h2
    have hfst : (parseRowCore row m s q).1 = some it := by rw [hcore]
    rw [parseRowCore_fst] at hfst
    exact mkItemLicitacao_valid hfst
  · intro row m s hlen
    by_cases hd : getVal row m.objeto = []
    · rw [parseRow_reject_early s (Or.inl hd)]
    · cases hq : cleanNumber (getVal row m.quantidade) with
      | none => rw [parseRow_reject_early s (Or.inr hq)]
      | some q =>
        rw [parseRow_eq_core hd hq, parseRowCore_fst]
        unfold mkItemLicitacao
        rw [if_neg]
        intro hcon
        omega

/-- Witness for C4: validity of a concretely parsed item, and rejection of the
concrete too-short description row. -/
theorem C4_parse_row_total_witness :
    (0 < itemDesk.item ∧ 0 < itemDesk.quantidade ∧ 3 ≤ itemDesk.objeto.length) ∧
    (parseRow rowShortDesc mapIQDUL { last_lote := none, item_counter := 1 }).1 =
      none := by
  constructor
  · exact C4_parse_row_total.1 rowDesk mapIQDUL
      { last_lote := none, item_counter := 1 } itemDesk (by decide)
  · exact C4_parse_row_total.2 rowShortDesc mapIQDUL
      { last_lote := none, item_counter := 1 } (by decide)

/-- Claim C10 (confirmed).  Rejection is not atomic with respect to the state:
a row whose quantity normalizes to one half (truncated to the invalid integer
0) still syncs the counter to its explicit number plus one and overwrites the
remembered lot, and a row with a two-character description still increments
the counter — both return no item with a mutated state. -/
theorem C10_nonatomic_reject :
    parseRow rowHalfQty mapIQDUL { last_lote := none, item_counter := 1 } =
      (none, { last_lote := some "L9".toList, item_counter := 8 }) ∧
    parseRow rowShortDesc mapIQDUL { last_lote := none, item_counter := 1 } =
      (none, { last_lote := none, item_counter := 2 }) ∧
    ({ last_lote := some "L9".toList, item_counter := 8 } : ExtractionState) ≠
      { last_lote := none, item_counter := 1 } ∧
    ({ last_lote := none, item_counter := 2 } : ExtractionState) ≠
      { last_lote := none, item_counter := 1 } := by
  exact ⟨by decide, by decide, by decide, by decide⟩

/-- A column is found exactly when some cell matches. -/
theorem findColumn_isSome (syns : List Str) (l : List Str) :
    (findColumn syns l).isSome ↔ l.any (cellMatches syns) = true := by
  unfold findColumn
  rw [findColumnAux_isSome]
  exact (List.any_eq_true).symm

/-- Claim C7 (confirmed).  Header identification succeeds (returns a mapping)
exactly when, after normalizing every cell, some cell matches an `objeto`
synonym and some cell matches a `quantidade` synonym; each field binds
independently to the leftmost matching cell; the five-column specification row
maps all five fields; matching is accent- and case-insensitive. -/
theorem C7_header_identifier :
    identifyColumns hdrRow = some mapIQDUL ∧
    cleanCell (some "Descrição".toList) = "descricao".toList ∧
    (∀ row, (identifyColumns row).isSome ↔
      ((row.map cleanCell).any (cellMatches synObjeto) = true ∧
       (row.map cleanCell).any (cellMatches synQuantidade) = true)) ∧
    (∀ row m, identifyColumns row = some m →
      m.item = findColumn synItem (row.map cleanCell) ∧
      m.quantidade = findColumn synQuantidade (row.map cleanCell) ∧
      m.objeto = findColumn synObjeto (row.map cleanCell) ∧
      m.unidade_fornecimento = findColumn synUnidade (row.map cleanCell) ∧
      m.lote = findColumn synLote (row.map cleanCell)) ∧
    (∀ syns (l : List Str) j, findColumn syns l = some j →
      j < l.length ∧ cellMatches syns (l.getD j []) = true ∧
      ∀ k < j, ¬ cellMatches syns (l.getD k []) = true) := by
  refine ⟨by decide, by decide, ?_, ?_, ?_⟩
  · intro row
    simp only [identifyColumns]
    by_cases hc : (findColumn synObjeto (row.map cleanCell)).isSome ∧
        (findColumn synQuantidade (row.map cleanCell)).isSome
    · rw [if_pos hc]
      simp only [Option.isSome_some, true_iff]
      exact ⟨(findColumn_isSome _ _).mp hc.1, (findColumn_isSome _ _).mp hc.2⟩
    · rw [if_neg hc]
      simp only [Option.isSome_none, Bool.false_eq_true, false_iff]
      intro h2
      exact hc ⟨(findColumn_isSome _ _).mpr h2.1, (findColumn_isSome _ _).mpr h2.2⟩
  · intro row m h
    simp only [identifyColumns] at h
    split at h
    · cases h
      exact ⟨rfl, rfl, rfl, rfl, rfl⟩
    · cases h
  · intro syns l j h
    have h2 : findColumnAux (cellMatches syns) l 0 = some j := h
    obtain ⟨k, hk1, hk2, hk3, hk4⟩ := findColumnAux_spec (cellMatches syns) l 0 j h2
    have hjk : j = k := by omega
    subst hjk
    exact ⟨hk2, hk3, hk4⟩

/-- Witness for C7: leftmost binding applied at the concrete header row. -/
theorem C7_header_identifier_witness :
    mapIQDUL.objeto = findColumn synObjeto (hdrRow.map cleanCell) ∧
    (2 : ℕ) < (hdrRow.map cleanCell).length := by
  have h4 := C7_header_identifier.2.2.2.1 hdrRow mapIQDUL (by decide)
  have h5 := C7_header_identifier.2.2.2.2 synObjeto (hdrRow.map cleanCell) 2 (by decide)
  exact ⟨h4.2.2.1, h5.1⟩

/-- The table loop splits over list append, threading the state. -/
theorem processTables_append (l1 l2 : List TableData) (s : ExtractionState) :
    processTables (l1 ++ l2) s =
      ((processTables l1 s).1 ++ (processTables l2 (processTables l1 s).2).1,
       (processTables l2 (processTables l1 s).2).2) := by
  induction l1 generalizing s with
  | nil => simp [processTables]
  | cons t ts ih =>
    simp only [List.cons_append, processTables, List.append_eq]
    rw [ih]
    simp [List.append_assoc]

/-- Claim C5 (confirmed).  Both table-source extractors thread one
ExtractionState through all tables of the document: the PDF page loop equals a
single fold over the flattened table list (so page boundaries do not reset the
state), a table whose first row fails header identification contributes no
items at all and its remaining rows are never parsed, the output concatenates
per-table items in discovery order with the state passed from each table to
the next, the DOCX extractor is the same fold over its discovered tables, and
in the concrete two-table document the second table's row inherits the lot of
the first. -/
theorem C5_shared_state :
    (∀ pages (s : ExtractionState),
      processPages pages s = processTables pages.flatten s) ∧
    (∀ hdr rest ts (s : ExtractionState), identifyColumns hdr = none →
      processTables ((hdr :: rest) :: ts) s = processTables ts s) ∧
    (∀ t ts (s : ExtractionState),
      processTables (t :: ts) s =
        ((processTable t s).1 ++ (processTables ts (processTable t s).2).1,
         (processTables ts (processTable t s).2).2)) ∧
    (∀ tables, docxExtract tables =
      (processTables (tables.map (fun t => t.map (fun r => r.map some)))
        { last_lote := none, item_counter := 1 }).1) ∧
    extractFromTables [[[hdrRow, rowDesk]], [[hdrRow, rowChair]]] =
      [itemDesk, itemChair] := by
  refine ⟨?_, ?_, ?_, fun tables => rfl, by decide⟩
  · intro pages
    induction pages with
    | nil => intro s; rfl
    | cons pg pgs ih =>
      intro s
      simp only [List.flatten_cons, processPages]
      rw [processTables_append, ih]
  · intro hdr rest ts s h
    simp only [processTables, processTable, h]
    simp
  · intro t ts s
    rfl

/-- Witness for C5: a table with an unidentifiable first row is skipped
entirely in a concrete two-table run. -/
theorem C5_shared_state_witness :
    processTables [[[some "X".toList], rowDesk], [hdrRow, rowChair]]
        { last_lote := none, item_counter := 1 } =
      processTables [[hdrRow, rowChair]] { last_lote := none, item_counter := 1 } :=
  C5_shared_state.2.1 [some "X".toList] [rowDesk] [[hdrRow, rowChair]]
    { last_lote := none, item_counter := 1 } (by decide)

/-- Claim C6 (confirmed).  The five specification lines yield exactly one item
with description "Cadeira ergonômica", quantity 20, unit "UN", lot "1" and
number 1; in general a flush emits an item only when the buffered description,
after removing the `Detalhada:` boilerplate and stripping, has at least the
minimum length and a quantity is present; an emitted item is numbered by the
running count of already flushed items plus one, its unit defaults to "UN" and
its lot is the lot active at flush time. -/
theorem C6_text_fallback :
    extractTextItems ["1 - GRUPO ÚNICO".toList,
        "Descrição: Cadeira ergonômica".toList, "Quantidade: 20".toList,
        "Unidade: UN".toList, "Local de entrega: Almoxarifado".toList] =
      [{ lote := some "1".toList, item := 1, objeto := "Cadeira ergonômica".toList,
         quantidade := 20, unidade_fornecimento := "UN".toList }] ∧
    (∀ items (buf : TextBuffer) lote (q : ℤ), buf.quantidade = some q → 0 < q →
      3 ≤ (pyStrip (removeSub "Detalhada:".toList (buf.objeto.getD []))).length →
      saveBufferItem items buf lote =
        items ++
          [{ lote := cleanLote lote, item := (items.length : ℤ) + 1,
             objeto := pyStrip (removeSub "Detalhada:".toList (buf.objeto.getD [])),
             quantidade := q,
             unidade_fornecimento := buf.unidade_fornecimento.getD "UN".toList }]) ∧
    (∀ items (buf : TextBuffer) lote, saveBufferItem items buf lote ≠ items →
      buf.quantidade.isSome ∧
      3 ≤ (pyStrip (removeSub "Detalhada:".toList (buf.objeto.getD []))).length) := by
  refine ⟨by decide, ?_, ?_⟩
  · intro items buf lote q hq hqpos hlen
    obtain ⟨o, bq, u⟩ := buf
    have hbq : bq = some q := hq
    subst hbq
    have hid : (0 : ℤ) < (items.length : ℤ) + 1 := by positivity
    simp only [saveBufferItem]
    rw [if_neg (not_lt.mpr hlen), mkItemLicitacao_of hid hlen hqpos]
  · intro items buf lote h
    obtain ⟨o, bq, u⟩ := buf
    cases bq with
    | none =>
      simp only [saveBufferItem] at h
      exact absurd rfl h
    | some q =>
      refine ⟨rfl, ?_⟩
      by_cases hlen :
          (pyStrip (removeSub "Detalhada:".toList (o.getD []))).length < 3
      · simp only [saveBufferItem] at h
        rw [if_pos hlen] at h
        exact absurd rfl h
      · exact not_lt.mp hlen

/-- Witness for C6: the flush rule applied to the concrete buffer built by the
five specification lines. -/
theorem C6_text_fallback_witness :
    saveBufferItem []
        { objeto := some "Cadeira ergonômica".toList, quantidade := some 20,
          unidade_fornecimento := some "UN".toList } (some "1".toList) =
      [] ++
        [{ lote := cleanLote (some "1".toList),
           item := (([] : List ItemLicitacao).length : ℤ) + 1,
           objeto := pyStrip (removeSub "Detalhada:".toList
             ((some "Cadeira ergonômica".toList).getD [])),
           quantidade := 20,
           unidade_fornecimento := (some "UN".toList).getD "UN".toList }] := by
  have h := C6_text_fallback.2.1 []
    { objeto := some "Cadeira ergonômica".toList, quantidade := some 20,
      unidade_fornecimento := some "UN".toList } (some "1".toList) 20
    (by decide) (by decide) (by decide)
  exact h

/-- Claim C8 (confirmed).  Candidates are ordered by a stable descending sort
on the filename score (the three specification filenames sort to relation of
items, termo, edital); the attachment loop stops right after a file that
yields items and scores at or above the top tier (100), while a yielding file
below the top tier is recorded and the remaining files still get their
attempt; a file yielding nothing is passed over. -/
theorem C8_file_priority :
    sortDesc (["edital.pdf".toList, "termo-referencia.pdf".toList,
        "anexo-relacaoitens.pdf".toList].map (fun f => (calcFilePriority f, f))) =
      [(100, "anexo-relacaoitens.pdf".toList), (75, "termo-referencia.pdf".toList),
       (50, "edital.pdf".toList)] ∧
    (∀ l : List (ℤ × Str), List.Perm (sortDesc l) l) ∧
    (∀ (l : List (ℤ × Str)) (R : ℤ × Str → ℤ × Str → Prop), l.Pairwise R →
      (sortDesc l).Pairwise (fun a b => b.1 ≤ a.1 ∧ (a.1 ≤ b.1 → R a b))) ∧
    (∀ ext (p : ℤ) f rest, ext f ≠ [] → 100 ≤ p →
      processFiles ext ((p, f) :: rest) = (ext f, [f])) ∧
    (∀ ext (p : ℤ) f rest, ext f ≠ [] → p < 100 →
      processFiles ext ((p, f) :: rest) =
        (ext f ++ (processFiles ext rest).1, f :: (processFiles ext rest).2)) ∧
    (∀ ext (p : ℤ) f rest, ext f = [] →
      processFiles ext ((p, f) :: rest) = processFiles ext rest) := by
  refine ⟨by decide, ?_, ?_, ?_, ?_, ?_⟩
  · intro l
    exact stableSort_perm _ l
  · intro l R hl
    exact stableSort_pairwise (fun a b => b.1 ≤ a.1)
      (fun a b => le_total b.1 a.1) (fun a b c h1 h2 => le_trans h2 h1) R l hl
  · intro ext p f rest hne hp
    simp only [processFiles]
    rw [if_neg hne, if_pos hp]
  · intro ext p f rest hne hp
    simp only [processFiles]
    rw [if_neg hne, if_neg (not_le.mpr hp)]
  · intro ext p f rest he
    simp only [processFiles]
    rw [if_pos he]

/-- Witness for C8: the break rule and the stability applied concretely. -/
theorem C8_file_priority_witness :
    processFiles (fun _ => [itemDesk])
        [((100 : ℤ), "anexo-relacaoitens.pdf".toList),
         (75, "termo-referencia.pdf".toList)] =
      ([itemDesk], ["anexo-relacaoitens.pdf".toList]) :=
  C8_file_priority.2.2.2.1 (fun _ => [itemDesk]) 100
    ("anexo-relacaoitens.pdf".toList) [(75, "termo-referencia.pdf".toList)]
    (by simp) (by decide)

/-- The key of every entry of an updated map is the new key or a key already
present. -/
theorem updateAssoc_key_mem {m : List ((ℤ × Str) × ItemLicitacao)} {k : ℤ × Str}
    {it : ItemLicitacao} {kv : (ℤ × Str) × ItemLicitacao}
    (h : kv ∈ updateAssoc m k it) : kv.1 = k ∨ ∃ kv2 ∈ m, kv.1 = kv2.1 := by
  induction m with
  | nil =>
    simp [updateAssoc] at h
    subst h
    exact Or.inl rfl
  | cons he rest ih =>
    obtain ⟨k2, e⟩ := he
    by_cases hkk : k2 = k
    · rw [updateAssoc, if_pos hkk] at h
      rcases List.mem_cons.mp h with rfl | h2
      · exact Or.inl hkk
      · exact Or.inr ⟨kv, List.mem_cons_of_mem _ h2, rfl⟩
    · rw [updateAssoc, if_neg hkk] at h
      rcases List.mem_cons.mp h with rfl | h2
      · exact Or.inr ⟨(k2, e), List.mem_cons_self _ _, rfl⟩
      · rcases ih h2 with h3 | ⟨kv2, hkv2, h3⟩
        · exact Or.inl h3
        · exact Or.inr ⟨kv2, List.mem_cons_of_mem _ hkv2, h3⟩

/-- The value of every entry of an updated map is the new item or a value
already present. -/
theorem updateAssoc_val_mem {m : List ((ℤ × Str) × ItemLicitacao)} {k : ℤ × Str}
    {it : ItemLicitacao} {kv : (ℤ × Str) × ItemLicitacao}
    (h : kv ∈ updateAssoc m k it) : kv.2 = it ∨ ∃ kv2 ∈ m, kv.2 = kv2.2 := by
  induction m with
  | nil =>
    simp [updateAssoc] at h
    subst h
    exact Or.inl rfl
  | cons he rest ih =>
    obtain ⟨k2, e⟩ := he
    by_cases hkk : k2 = k
    · rw [updateAssoc, if_pos hkk] at h
      rcases List.mem_cons.mp h with rfl | h2
      · by_cases hc : loteTruthy it.lote && !loteTruthy e.lote
        · rw [if_pos hc]
          exact Or.inl rfl
        · rw [if_neg hc]
          exact Or.inr ⟨(k2, e), List.mem_cons_self _ _, rfl⟩
      · exact Or.inr ⟨kv, List.mem_cons_of_mem _ h2, rfl⟩
    · rw [updateAssoc, if_neg hkk] at h
      rcases List.mem_cons.mp h with rfl | h2
      · exact Or.inr ⟨(k2, e), List.mem_cons_self _ _, rfl⟩
      · rcases ih h2 with h3 | ⟨kv2, hkv2, h3⟩
        · exact Or.inl h3
        · exact Or.inr ⟨kv2, List.mem_cons_of_mem _ hkv2, h3⟩

/-- Updating preserves the map invariant: distinct keys, and every entry keyed
by its own item's key. -/
theorem updateAssoc_inv (k : ℤ × Str) (it : ItemLicitacao) (hk : keyOf it = k) :
    ∀ m : List ((ℤ × Str) × ItemLicitacao),
      m.Pairwise (fun a b => a.1 ≠ b.1) → (∀ kv ∈ m, keyOf kv.2 = kv.1) →
      (updateAssoc m k it).Pairwise (fun a b => a.1 ≠ b.1) ∧
        ∀ kv ∈ updateAssoc m k it, keyOf kv.2 = kv.1 := by
  intro m
  induction m with
  | nil =>
    intro _ _
    constructor
    · simp [updateAssoc]
    · intro kv hkv
      simp [updateAssoc] at hkv
      subst hkv
      exact hk
  | cons he rest ih =>
    intro h1 h2
    obtain ⟨k2, e⟩ := he
    rw [List.pairwise_cons] at h1
    obtain ⟨h1a, h1b⟩ := h1
    by_cases hkk : k2 = k
    · rw [updateAssoc, if_pos hkk]
      constructor
      · exact List.Pairwise.cons h1a h1b
      · intro kv hkv
        rcases List.mem_cons.mp hkv with rfl | hkv2
        · by_cases hc : loteTruthy it.lote && !loteTruthy e.lote
          · rw [if_pos hc]
            rw [hk, hkk]
          · rw [if_neg hc]
            exact h2 (k2, e) (List.mem_cons_self _ _)
        · exact h2 kv (List.mem_cons_of_mem _ hkv2)
    · rw [updateAssoc, if_neg hkk]
      have hrest := ih h1b (fun kv hkv => h2 kv (List.mem_cons_of_mem _ hkv))
      constructor
      · refine List.Pairwise.cons ?_ hrest.1
        intro b hb
        rcases updateAssoc_key_mem hb with hb1 | ⟨kv2, hkv2, hb1⟩
        · rw [hb1]
          exact hkk
        · rw [hb1]
          exact h1a kv2 hkv2
      · intro kv hkv
        rcases List.mem_cons.mp hkv with rfl | hkv2
        · exact h2 (k2, e) (List.mem_cons_self _ _)
        · exact hrest.2 kv hkv2

/-- The deduplication map has distinct keys, each entry keyed by its item. -/
theorem dedupMap_inv (items : List ItemLicitacao) :
    (dedupMap items).Pairwise (fun a b => a.1 ≠ b.1) ∧
      ∀ kv ∈ dedupMap items, keyOf kv.2 = kv.1 := by
  have hgen : ∀ (l : List ItemLicitacao) (m : List ((ℤ × Str) × ItemLicitacao)),
      m.Pairwise (fun a b => a.1 ≠ b.1) → (∀ kv ∈ m, keyOf kv.2 = kv.1) →
      (l.foldl (fun m2 it => updateAssoc m2 (keyOf it) it) m).Pairwise
          (fun a b => a.1 ≠ b.1) ∧
        ∀ kv ∈ l.foldl (fun m2 it => updateAssoc m2 (keyOf it) it) m,
          keyOf kv.2 = kv.1 := by
    intro l
    induction l with
    | nil => intro m h1 h2; exact ⟨h1, h2⟩
    | cons it its ih =>
      intro m h1 h2
      have hstep := updateAssoc_inv (keyOf it) it rfl m h1 h2
      exact ih _ hstep.1 hstep.2
  exact hgen items [] (by simp) (by simp)

/-- Every value kept by the deduplication map comes from the input list. -/
theorem dedupMap_val (items : List ItemLicitacao)
    {kv : (ℤ × Str) × ItemLicitacao} (h : kv ∈ dedupMap items) :
    kv.2 ∈ items := by
  have hgen : ∀ (l : List ItemLicitacao) (m : List ((ℤ × Str) × ItemLicitacao)),
      kv ∈ l.foldl (fun m2 it => updateAssoc m2 (keyOf it) it) m →
      kv.2 ∈ l ∨ ∃ kv2 ∈ m, kv.2 = kv2.2 := by
    intro l
    induction l with
    | nil => intro m h2; exact Or.inr ⟨kv, h2, rfl⟩
    | cons it its ih =>
      intro m h2
      rcases ih _ h2 with h3 | ⟨kv2, hkv2, h3⟩
      · exact Or.inl (List.mem_cons_of_mem _ h3)
      · rcases updateAssoc_val_mem hkv2 with h4 | ⟨kv3, hkv3, h4⟩
        · rw [h3, h4]
          exact Or.inl (List.mem_cons_self _ _)
        · exact Or.inr ⟨kv3, hkv3, h3.trans h4⟩
  rcases hgen items [] h with h2 | ⟨kv2, hkv2, h2⟩
  · exact h2
  · simp at hkv2

/-- Every list is pairwise related by the trivial relation. -/
theorem pairwise_trivial (l : List ItemLicitacao) :
    l.Pairwise (fun _ _ => True) := by
  induction l with
  | nil => exact List.Pairwise.nil
  | cons x t ih => exact List.Pairwise.cons (fun _ _ => trivial) ih

/-- Counterexample to claim C9: with three items of item number 1 — key
"aaaa" without lot, key "bbbb", then key "aaaa" again with lot "G1" — the
kept items are the third and the second input items, whose original relative
order is (second, third); but the code orders ties by each key's first
occurrence, so the replaced "aaaa" item comes out first. -/
theorem C9_dedup_counterexample :
    dedupItems [itemA, itemB, itemA2] = [itemA2, itemB] ∧
    dedupItems [itemA, itemB, itemA2] ≠ [itemB, itemA2] ∧ itemA2 ≠ itemB := by
  exact ⟨by decide, by decide, by decide⟩

/-- Claim C9 (corrected).  The deduplicator keys each item by its item number
with the first 30 description characters lowercased, keeps the first
occurrence of each key, replaces it by a later occurrence exactly when the
later item has a truthy lot and the kept one does not, and returns the kept
items sorted ascending by item number; ties, however, are ordered by the first
occurrence of each key (a replacement stays in its key's original position),
not by the kept items' own original relative order.  Of the two specification
Notebook items the second, carrying the lot, survives alone. -/
theorem C9_dedup_amended :
    dedupItems [itemNB1, itemNB2] = [itemNB2] ∧
    (∀ a b, keyOf a = keyOf b →
      dedupItems [a, b] =
        [if loteTruthy b.lote && !loteTruthy a.lote then b else a]) ∧
    (∀ items, (dedupItems items).Pairwise (fun a b => a.item ≤ b.item)) ∧
    (∀ items, (dedupItems items).Pairwise (fun a b => keyOf a ≠ keyOf b)) ∧
    (∀ items x, x ∈ dedupItems items → x ∈ items) ∧
    (∀ (l : List ItemLicitacao) (R : ItemLicitacao → ItemLicitacao → Prop),
      l.Pairwise R → (sortAscItems l).Pairwise
        (fun a b => a.item ≤ b.item ∧ (b.item ≤ a.item → R a b))) := by
  have hsorted : ∀ (l : List ItemLicitacao)
      (R : ItemLicitacao → ItemLicitacao → Prop), l.Pairwise R →
      (sortAscItems l).Pairwise
        (fun a b => a.item ≤ b.item ∧ (b.item ≤ a.item → R a b)) := by
    intro l R hl
    exact stableSort_pairwise (fun a b => a.item ≤ b.item)
      (fun a b => le_total a.item b.item) (fun a b c h1 h2 => le_trans h1 h2) R l hl
  refine ⟨by decide, ?_, ?_, ?_, ?_, hsorted⟩
  · intro a b h
    simp [dedupItems, dedupMap, updateAssoc, h, sortAscItems, stableSort,
      stableInsert]
  · intro items
    show (sortAscItems ((dedupMap items).map (fun kv => kv.2))).Pairwise
      (fun a b => a.item ≤ b.item)
    exact List.Pairwise.imp (fun h => h.1)
      (hsorted ((dedupMap items).map (fun kv => kv.2)) (fun _ _ => True)
        (pairwise_trivial _))
  · intro items
    have hinv := dedupMap_inv items
    have hmap : ((dedupMap items).map (fun kv => kv.2)).Pairwise
        (fun a b => keyOf a ≠ keyOf b) := by
      rw [List.pairwise_map]
      refine List.Pairwise.imp_of_mem ?_ hinv.1
      intro a b ha hb hne
      rw [hinv.2 a ha, hinv.2 b hb]
      exact hne
    show (sortAscItems ((dedupMap items).map (fun kv => kv.2))).Pairwise
      (fun a b => keyOf a ≠ keyOf b)
    exact ((stableSort_perm (fun a b => a.item ≤ b.item)
      ((dedupMap items).map (fun kv => kv.2))).pairwise_iff
        (fun h => Ne.symm h)).mpr hmap
  · intro items x hx
    have hx3 : x ∈ sortAscItems ((dedupMap items).map (fun kv => kv.2)) := hx
    have hx2 : x ∈ (dedupMap items).map (fun kv => kv.2) :=
      (stableSort_perm (fun a b => a.item ≤ b.item)
        ((dedupMap items).map (fun kv => kv.2))).mem_iff.mp hx3
    obtain ⟨kv, hkv, hkv2⟩ := List.mem_map.mp hx2
    rw [← hkv2]
    exact dedupMap_val items hkv

/-- Witness for C9: the replacement rule applied to the two "aaaa" items. -/
theorem C9_dedup_amended_witness :
    dedupItems [itemA, itemA2] = [itemA2] := by
  have h := C9_dedup_amended.2.1 itemA itemA2 (by decide)
  rw [h]
  decide

example : cleanNumber ("1.234,56".toList) = some (mkRat 30864 25) := by decide
example : cleanNumber ("0".toList) = none := by decide
example : cleanNumber ("abc".toList) = none := by decide
example : cleanNumber ("-5".toList) = some 5 := by decide
example : pyTrunc (mkRat 5 10) = 0 := by decide
example : pyTrunc (mkRat 25 10) = 2 := by decide
example : pyStrip ("  ab c  ".toList) = "ab c".toList := by decide
example : lowerStr ("GRUPO ÚNICO".toList) = "grupo único".toList := by decide
example : pyStrip (lowerStr (uniStr ("DESCRIÇÃO ".toList))) = "descricao".toList := by decide
example : removeSub ("Detalhada:".toList) ("Detalhada: x".toList) = " x".toList := by decide
example :
    identifyColumns [some "ITEM".toList, some "QTDE".toList, some "DESCRIÇÃO".toList,
      some "UNID".toList, some "LOTE".toList] =
    some { item := some 0, quantidade := some 1, objeto := some 2,
           unidade_fornecimento := some 3, lote := some 4 } := by decide
example :
    parseRow [some "1".toList, some "10".toList, some "Desk".toList, some "UN".toList,
        some "G1".toList]
      { item := some 0, quantidade := some 1, objeto := some 2,
        unidade_fornecimento := some 3, lote := some 4 }
      { last_lote := none, item_counter := 1 } =
    (some { lote := some "G1".toList, item := 1, objeto := "Desk".toList, quantidade := 10,
            unidade_fornecimento := "UN".toList },
     { last_lote := some "G1".toList, item_counter := 2 }) := by decide
example :
    parseRow [some "".toList, some "5".toList, some "Chair".toList, some "UN".toList,
        some "".toList]
      { item := some 0, quantidade := some 1, objeto := some 2,
        unidade_fornecimento := some 3, lote := some 4 }
      { last_lote := some "G1".toList, item_counter := 2 } =
    (some { lote := some "G1".toList, item := 2, objeto := "Chair".toList, quantidade := 5,
            unidade_fornecimento := "UN".toList },
     { last_lote := some "G1".toList, item_counter := 3 }) := by decide
example :
    parseRow [some "7".toList, some "0,5".toList, some "Desk".toList, some "UN".toList,
        some "L9".toList]
      { item := some 0, quantidade := some 1, objeto := some 2,
        unidade_fornecimento := some 3, lote := some 4 }
      { last_lote := none, item_counter := 1 } =
    (none, { last_lote := some "L9".toList, item_counter := 8 }) := by decide
example :
    extractTextItems ["1 - GRUPO ÚNICO".toList, "Descrição: Cadeira ergonômica".toList,
      "Quantidade: 20".toList, "Unidade: UN".toList, "Local de entrega: Almoxarifado".toList] =
    [{ lote := some "1".toList, item := 1, objeto := "Cadeira ergonômica".toList,
       quantidade := 20, unidade_fornecimento := "UN".toList }] := by decide
example :
    sortDesc (["edital.pdf".toList, "termo-referencia.pdf".toList,
        "anexo-relacaoitens.pdf".toList].map (fun f => (calcFilePriority f, f))) =
    [(100, "anexo-relacaoitens.pdf".toList), (75, "termo-referencia.pdf".toList),
     (50, "edital.pdf".toList)] := by decide
example :
    dedupItems
      [{ lote := none, item := 1, objeto := "Notebook Dell Core i7".toList,
         quantidade := 2, unidade_fornecimento := "UN".toList },
       { lote := some "G1".toList, item := 1, objeto := "Notebook Dell Core i7".toList,
         quantidade := 2, unidade_fornecimento := "UN".toList }] =
      [{ lote := some "G1".toList, item := 1, objeto := "Notebook Dell Core i7".toList,
         quantidade := 2, unidade_fornecimento := "UN".toList }] := by decide
example :
    extractFromTables
      [[[[some "ITEM".toList, some "QTDE".toList, some "DESCRIÇÃO".toList,
          some "UNID".toList, some "LOTE".toList],
         [some "1".toList, some "10".toList, some "Desk".toList, some "UN".toList,
          some "G1".toList]]],
       [[[some "ITEM".toList, some "QTDE".toList, some "DESCRIÇÃO".toList,
          some "UNID".toList, some "LOTE".toList],
         [some "".toList, some "5".toList, some "Chair".toList, some "UN".toList,
          some "".toList]]]] =
    [{ lote := some "G1".toList, item := 1, objeto := "Desk".toList, quantidade := 10,
       unidade_fornecimento := "UN".toList },
     { lote := some "G1".toList, item := 2, objeto := "Chair".toList, quantidade := 5,
       unidade_fornecimento := "UN".toList }] := by decide
